import Mathlib

/-!
Verification development for the web-crawling and extraction engine of the
lead-gen-system repository (`app/services/scraper.py`).

The engine's pure logic is shallowly embedded: URL parsing (Python
`urllib.parse.urlparse` netloc/path extraction, restricted to the behaviour
the engine relies on), the URL admission filter `_should_crawl`, the page-type
classifier `_classify_page_type`, the HTML strip/normalize steps
`_extract_text` / `_html_to_markdown` (over an abstract DOM tree, since HTML
parsing itself is done by the BeautifulSoup collaborator), the tenacity retry
wrapper on `_fetch_page` (`stop_after_attempt(3)`,
`wait_exponential(multiplier=1, min=2, max=10)`), and the `crawl_site` /
`map_site` / `search_and_scrape` orchestration loops with their
visited-set/frontier state.  Network fetches and LLM extraction are external
collaborators and are modelled as oracle functions supplied as parameters.
-/

/-! ## Character-list string helpers (models of the Python `str` operations
the engine uses: `in` (substring), `endswith`, `lower`, `strip`, `split`). -/

/-- Model of Python list/str containment check used for characters: is `p`
a leading segment of `s`?  (`p` is the pattern, `s` the scanned list.) -/
def charsLeads : List Char → List Char → Bool
  | [], _ => true
  | _ :: _, [] => false
  | p :: ps, c :: cs => p == c && charsLeads ps cs

/-- Substring occurrence test on character lists: does `pat` occur
contiguously inside `s`?  Model of Python `pat in s` on strings. -/
def charsContains : List Char → List Char → Bool
  | [], pat => pat.isEmpty
  | c :: t, pat => charsLeads pat (c :: t) || charsContains t pat

/-- Model of Python `pat in s` for strings. -/
def strContains (s pat : String) : Bool :=
  charsContains s.toList pat.toList

/-- Model of Python `s.endswith(suffixStr)`. -/
def strEndsWith (s suf : String) : Bool :=
  charsLeads suf.toList.reverse s.toList.reverse

/-- Model of Python `s.lower()` (ASCII-adequate, as in the URLs the engine
lowercases). -/
def urlLower (s : String) : String :=
  String.mk (s.toList.map Char.toLower)

/-- Model of Python `s.strip()` / BeautifulSoup text stripping. -/
def strTrim (s : String) : String :=
  String.mk (((s.toList.dropWhile Char.isWhitespace).reverse.dropWhile
    Char.isWhitespace).reverse)

/-- Model of Python `sep.join(parts)`. -/
def joinSep (sep : String) : List String → String
  | [] => ""
  | [s] => s
  | s :: rest => s ++ sep ++ joinSep sep rest

/-- Split a character list at newline characters, model of
Python `text.split(chr(10))`. -/
def splitLinesChars : List Char → List (List Char)
  | [] => [[]]
  | c :: rest =>
    if c == '\n' then [] :: splitLinesChars rest
    else
      match splitLinesChars rest with
      | [] => [[c]]
      | l :: ls => (c :: l) :: ls

/-- Boolean membership test on string lists, model of Python `x in someList`
and `x in someSet` for the visited-set and pattern lists. -/
def memb (x : String) (l : List String) : Bool :=
  l.any (fun y => y == x)

/-! ## URL parsing: the fragment/`netloc`/`path` behaviour of
`urllib.parse.urlparse` that `_should_crawl`, `crawl_site` and `map_site`
rely on. -/

/-- Characters allowed in a URL scheme after the leading letter
(`urllib.parse` accepts alphanumerics and `+`, `-`, `.`). -/
def isSchemeChar (c : Char) : Bool :=
  c.isAlphanum || c == '+' || c == '-' || c == '.'

/-- Drop a leading `scheme:` from a character list when a valid scheme is
present, as `urllib.parse.urlsplit` does. -/
def splitSchemeChars (s : List Char) : List Char :=
  let pre := s.takeWhile (fun c => c != ':')
  if pre.length < s.length && !pre.isEmpty &&
      (match pre with | c :: _ => c.isAlpha | [] => false) &&
      pre.all isSchemeChar
  then s.drop (pre.length + 1) else s

/-- The network-location (host) component of a URL, as computed by
`urllib.parse.urlparse(url).netloc`: after stripping any fragment and a
leading `scheme:`, a netloc is present only after `//` and extends to the
next `/` or `?`. -/
def netlocChars (s : List Char) : List Char :=
  match splitSchemeChars (s.takeWhile (fun c => c != '#')) with
  | '/' :: '/' :: rest => rest.takeWhile (fun c => c != '/' && c != '?')
  | _ => []

/-- Model of `urllib.parse.urlparse(url).netloc`. -/
def netlocOf (url : String) : String :=
  String.mk (netlocChars url.toList)

/-- The path component of a URL, as computed by
`urllib.parse.urlparse(url).path`: what follows the netloc (when present),
up to the query string. -/
def pathChars (s : List Char) : List Char :=
  match splitSchemeChars (s.takeWhile (fun c => c != '#')) with
  | '/' :: '/' :: rest =>
    (rest.dropWhile (fun c => c != '/' && c != '?')).takeWhile (fun c => c != '?')
  | other => other.takeWhile (fun c => c != '?')

/-- Model of `urllib.parse.urlparse(url).path`. -/
def pathOf (url : String) : String :=
  String.mk (pathChars url.toList)

/-- Model of the fragment removal `href.split(chr(35))[0]` performed by
`map_site` and `_crawl_page` before enqueueing a link. -/
def stripFragment (url : String) : String :=
  String.mk (url.toList.takeWhile (fun c => c != '#'))

/-- Literal-pattern model of Python `re.search(pattern, url)`: for patterns
without regex metacharacters, `re.search` succeeds exactly when the pattern
occurs as a substring.  Used to instantiate the engine's pattern-matcher
parameter at concrete inputs. -/
def reSearchLit (pat url : String) : Bool :=
  strContains url pat

/-! ## The URL admission filter `_should_crawl` -/

/-- The non-content extension blacklist from `_should_crawl`. -/
def exclude_extensions : List String :=
  [".pdf", ".jpg", ".png", ".gif", ".css", ".js", ".zip"]

/-- Embedding of `FirecrawlScraper._should_crawl(url, base_domain,
include_patterns, exclude_patterns)`.  The regex engine is abstracted as the
parameter `m : pattern → url → Bool` (modelling `re.search`); `include` /
`exclude` pattern lists use `[]` for Python's `None`/empty list, which the
source treats identically (truthiness).  The decision sequence mirrors the
source: same-domain check, exclude patterns, include patterns, extension
blacklist, default admit. -/
def should_crawl (m : String → String → Bool) (url base_domain : String)
    (include_patterns exclude_patterns : List String) : Bool :=
  if netlocOf url != base_domain then false
  else if exclude_patterns.any (fun p => m p url) then false
  else if !include_patterns.isEmpty then include_patterns.any (fun p => m p url)
  else if exclude_extensions.any (fun ext => strEndsWith (urlLower url) ext) then false
  else true

/-! ## The page-type classifier `_classify_page_type` (map mode) -/

/-- Model of `any(x in url_lower for x in kws)`. -/
def containsAny (u : String) (kws : List String) : Bool :=
  kws.any (fun k => strContains u k)

/-- Embedding of `FirecrawlScraper._classify_page_type(url, soup)`.  The
`soup` argument contributes nothing: the source computes a lowercase title
from it but never uses it, so the classifier is a function of the URL
alone.  Every test is on the full lowercased URL string; the final keyword
rule uses `url_lower.endswith`. -/
def classify_page_type (url : String) : String :=
  let u := urlLower url
  if containsAny u ["contact", "about", "team"] then "contact"
  else if containsAny u ["blog", "news", "article"] then "content"
  else if containsAny u ["product", "service", "solution"] then "product"
  else if containsAny u ["pricing", "plan"] then "pricing"
  else if strEndsWith u "/" || strEndsWith u ".html" then "page"
  else "other"

/-- The classifier as the claim states it, for comparison with the source's
`classify_page_type`: identical keyword rules, but the `page` rule tests the
URL's *path* component ending in `/` or `.html`, rather than the full URL
string. -/
def classify_page_type_claimC8 (url : String) : String :=
  let u := urlLower url
  let p := urlLower (pathOf url)
  if containsAny u ["contact", "about", "team"] then "contact"
  else if containsAny u ["blog", "news", "article"] then "content"
  else if containsAny u ["product", "service", "solution"] then "product"
  else if containsAny u ["pricing", "plan"] then "pricing"
  else if strEndsWith p "/" || strEndsWith p ".html" then "page"
  else "other"

/-! ## DOM trees and the normalization steps `_extract_text` /
`_html_to_markdown`.

HTML parsing is done by the BeautifulSoup collaborator; the engine's own
logic operates on the parsed tree, modelled here as `HNode`.
`tag.decompose()` removes an element and its whole subtree;
`soup.get_text(separator, strip=True)` joins the stripped non-empty text
leaves, in document order, with the separator. -/

inductive HNode where
  | text : String → HNode
  | elem : String → List HNode → HNode

mutual

/-- Removal of every element whose tag is in `bad`, with its subtree —
the `for tag in soup.find_all([...]): tag.decompose()` step. -/
def stripNode (bad : List String) : HNode → List HNode
  | .text s => [.text s]
  | .elem t cs => if memb t bad then [] else [.elem t (stripList bad cs)]

/-- `stripNode` mapped over a child list. -/
def stripList (bad : List String) : List HNode → List HNode
  | [] => []
  | c :: cs => stripNode bad c ++ stripList bad cs

end

mutual

/-- The stripped, non-empty text leaves of a tree in document order — the
strings that `soup.get_text(separator, strip=True)` joins. -/
def textsNode : HNode → List String
  | .text s => if strTrim s == "" then [] else [strTrim s]
  | .elem _ cs => textsList cs

/-- `textsNode` over a child list. -/
def textsList : List HNode → List String
  | [] => []
  | c :: cs => textsNode c ++ textsList cs

end

/-- The strip set of `_extract_text`. -/
def text_strip_tags : List String := ["script", "style", "nav", "footer"]

/-- The strip set of `_html_to_markdown`. -/
def markdown_strip_tags : List String :=
  ["script", "style", "nav", "footer", "header", "aside"]

/-- Embedding of `FirecrawlScraper._extract_text(html)`: decompose the tags
in `text_strip_tags`, then `soup.get_text(separator=chr(32), strip=True)`. -/
def extract_text (h : HNode) : String :=
  joinSep " " (textsList (stripNode text_strip_tags h))

/-- Embedding of `FirecrawlScraper._html_to_markdown(html)`: decompose the
tags in `markdown_strip_tags`, `get_text` with newline separator, then
re-split into lines, strip each, drop empties and join with blank lines. -/
def html_to_markdown (h : HNode) : String :=
  let t := joinSep "\n" (textsList (stripNode markdown_strip_tags h))
  let lines := (splitLinesChars t.toList).map (fun l => strTrim (String.mk l))
  joinSep "\n\n" (lines.filter (fun s => s != ""))

/-! ## The Fetcher: `_fetch_page` under its tenacity retry decorator
`@retry(stop=stop_after_attempt(3), wait=wait_exponential(multiplier=1,
min=2, max=10))`.

A fetch attempt is modelled by an oracle `o : Nat → Except FetchErr HNode`
giving the outcome of the numbered attempt (1-based, as tenacity numbers
attempts): an exception raised inside `_fetch_page` (httpx transport errors,
`raise_for_status`, invalid URLs) or the parsed page.  The tenacity decorator
retries on *every* exception (its default retry predicate), stopping after
the third attempt and re-raising the final failure. -/

inductive FetchErr where
  | timeout : FetchErr
  | connectionRefused : FetchErr
  | httpStatus : Nat → FetchErr
  | malformedUrl : FetchErr
deriving DecidableEq

/-- Human-readable cause string, modelling Python's `str(e)` on the raised
exception as consumed by `scrape_single`. -/
def fetchErrMsg : FetchErr → String
  | .timeout => "timeout"
  | .connectionRefused => "connection refused"
  | .httpStatus n => "HTTP status " ++ toString n
  | .malformedUrl => "malformed URL"

/-- Whether an attempt outcome is a success. -/
def attemptOk (x : Except FetchErr HNode) : Bool :=
  match x with
  | .ok _ => true
  | .error _ => false

/-- The result of `_fetch_page` under the retry decorator: the first
successful attempt among attempts 1..3, or the third attempt's failure. -/
def fetch_page (o : Nat → Except FetchErr HNode) : Except FetchErr HNode :=
  match o 1 with
  | .ok p => .ok p
  | .error _ =>
    match o 2 with
    | .ok p => .ok p
    | .error _ => o 3

/-- How many attempts the retry decorator issues against the oracle. -/
def fetchAttemptCount (o : Nat → Except FetchErr HNode) : Nat :=
  match o 1 with
  | .ok _ => 1
  | .error _ =>
    match o 2 with
    | .ok _ => 2
    | .error _ => 3

/-- The backoff delay (seconds) tenacity's
`wait_exponential(multiplier=1, min=2, max=10)` sleeps after failed attempt
number `n`: `max(2, min(2 ^ n, 10))`. -/
def waitExp (n : Nat) : Nat :=
  max 2 (min (2 ^ n) 10)

/-- The delays slept between attempts for a call that issues `n` attempts:
`n - 1` backoffs, after failed attempts `1 .. n-1`. -/
def backoffDelays (n : Nat) : List Nat :=
  (List.range (n - 1)).map (fun i => waitExp (i + 1))

/-! ## `scrape_single` (single mode) -/

structure SingleResult where
  success : Bool
  url : String
  errorMsg : Option String
  text : Option String

/-- Embedding of `FirecrawlScraper.scrape_single(url)` over a fetch oracle:
on a fetch success the page is normalized and returned with `success=True`;
any exception (including retry exhaustion) is caught and returned as
`success=False` with the URL and the cause string.  The optional LLM
extraction is the external Extractor collaborator and is not part of the
success/failure decision. -/
def scrape_single (o : Nat → Except FetchErr HNode) (url : String) : SingleResult :=
  match fetch_page o with
  | .ok h => { success := true, url := url, errorMsg := none,
               text := some (extract_text h) }
  | .error e => { success := false, url := url, errorMsg := some (fetchErrMsg e),
                  text := none }

/-! ## `crawl_site` (crawl mode)

`crawl_site` keeps a frontier list `queue`, a visited set, and a result
list.  Per iteration it takes a batch of `MAX_CONCURRENT_SCRAPES` URLs off
the queue, dispatches `_crawl_page` for each not-yet-visited one (marking it
visited at admission), appends every successful result, and enqueues the
admissible (`_should_crawl`) unvisited links of each success.  The loop runs
while the queue is non-empty and fewer than `max_pages` results have been
collected; the guard is only re-checked between batches.

The per-URL `_crawl_page` outcome is modelled by an oracle
`fetch : url → Option (List url)`: `none` for a failed page (`success`
false or a raised exception), `some links` for a success whose extracted,
absolutized, fragment-stripped, deduplicated link list is `links`.  The
`dispatched` field is the trace of URLs handed to `_crawl_page`, in
dispatch order. -/

structure CrawlConfig where
  conc : Nat
  maxPages : Nat
  matcher : String → String → Bool
  includePatterns : List String
  excludePatterns : List String
  fetch : String → Option (List String)
  baseDomain : String

structure CrawlState where
  visited : List String
  dispatched : List String
  results : List String
  queue : List String

/-- The per-batch admission step: `for url in batch: if url not in
self.visited_urls: self.visited_urls.add(url); tasks.append(...)`.
Returns the dispatched task list (in batch order) and the updated
visited set. -/
def admitBatch (visited : List String) : List String → List String × List String
  | [] => ([], visited)
  | u :: rest =>
    if memb u visited then admitBatch visited rest
    else
      let p := admitBatch (u :: visited) rest
      (u :: p.1, p.2)

/-- The admission test a discovered link must pass to be enqueued:
`_should_crawl` and not already visited. -/
def linkAdmissible (C : CrawlConfig) (visited : List String) (l : String) : Bool :=
  should_crawl C.matcher l C.baseDomain C.includePatterns C.excludePatterns
    && !(memb l visited)

/-- The fan-in over a batch's `_crawl_page` outcomes: successful URLs are
collected (in dispatch order) and each success's admissible unvisited links
are appended to the queue.  Returns (new results, newly enqueued links). -/
def processResults (C : CrawlConfig) (visited : List String) :
    List String → List String × List String
  | [] => ([], [])
  | u :: rest =>
    let p := processResults C visited rest
    match C.fetch u with
    | some links => (u :: p.1, links.filter (linkAdmissible C visited) ++ p.2)
    | none => p

/-- One iteration of the `while` loop of `crawl_site`. -/
def crawlStep (C : CrawlConfig) (st : CrawlState) : CrawlState :=
  let batch := st.queue.take C.conc
  let rest := st.queue.drop C.conc
  let a := admitBatch st.visited batch
  let r := processResults C a.2 a.1
  { visited := a.2,
    dispatched := st.dispatched ++ a.1,
    results := st.results ++ r.1,
    queue := rest ++ r.2 }

/-- The `while queue and len(results) < max_pages` loop, fuel-indexed:
`fuel` bounds the number of iterations, and once the guard fails the state
is returned unchanged (so any sufficiently large fuel yields the loop's
terminal state). -/
def crawlLoop (C : CrawlConfig) : Nat → CrawlState → CrawlState
  | 0, st => st
  | Nat.succ fuel, st =>
    if st.queue ≠ [] ∧ st.results.length < C.maxPages then
      crawlLoop C fuel (crawlStep C st)
    else st

/-- The initial crawl state: empty visited set, the seed as the sole
frontier entry.  The seed is enqueued directly, without any
`_should_crawl` check. -/
def crawlInit (start : String) : CrawlState :=
  { visited := [], dispatched := [], results := [], queue := [start] }

/-- The job-level payload `crawl_site` returns: unconditional `success`,
the seed, `pages_crawled = len(results)` and the result list. -/
structure CrawlPayload where
  success : Bool
  startUrl : String
  pagesCrawled : Nat
  results : List String

/-- Embedding of `FirecrawlScraper.crawl_site(start_url, max_pages, ...)`:
run the loop from the seed with `base_domain = urlparse(start_url).netloc`
and wrap the terminal state into the returned payload. -/
def crawl_site (fuel conc maxPages : Nat) (m : String → String → Bool)
    (include_patterns exclude_patterns : List String)
    (fetch : String → Option (List String)) (start : String) : CrawlPayload :=
  let C : CrawlConfig :=
    { conc := conc, maxPages := maxPages, matcher := m,
      includePatterns := include_patterns, excludePatterns := exclude_patterns,
      fetch := fetch, baseDomain := netlocOf start }
  let final := crawlLoop C fuel (crawlInit start)
  { success := true, startUrl := start,
    pagesCrawled := final.results.length, results := final.results }

/-! ## `map_site` (map mode)

`map_site` pops one URL at a time off its frontier, skips it if already
visited, marks it visited, fetches it (any exception skips the page), and on
success appends a sitemap entry and enqueues each same-domain unvisited link
with its fragment stripped.  The per-page outcome is again an oracle
`fetch : url → Option (List url)` (`none` for an exception inside the `try`
block, `some links` for the absolutized `href` list of the parsed page,
before fragment stripping). -/

structure MapEntry where
  url : String
  pageType : String

structure MapState where
  visited : List String
  sitemap : List MapEntry
  queue : List String

/-- One iteration of the `while` loop body of `map_site` (for a non-empty
queue): `queue.pop(0)`, the visited check-and-mark, the fetch, the sitemap
append, and the link filter `parsed.netloc == base_domain and href not in
self.visited_urls` with `href.split(chr(35))[0]` enqueued. -/
def mapStep (base : String) (fetch : String → Option (List String))
    (st : MapState) : MapState :=
  match st.queue with
  | [] => st
  | u :: rest =>
    if memb u st.visited then { st with queue := rest }
    else
      let visited := u :: st.visited
      match fetch u with
      | none => { visited := visited, sitemap := st.sitemap, queue := rest }
      | some links =>
        { visited := visited,
          sitemap := st.sitemap ++ [{ url := u, pageType := classify_page_type u }],
          queue := rest ++
            ((links.filter (fun l => netlocOf l == base && !(memb l visited))).map
              stripFragment) }

/-- The `while queue and len(site_map) < max_pages` loop of `map_site`,
fuel-indexed like `crawlLoop`. -/
def mapLoop (base : String) (fetch : String → Option (List String))
    (maxPages : Nat) : Nat → MapState → MapState
  | 0, st => st
  | Nat.succ fuel, st =>
    if st.queue ≠ [] ∧ st.sitemap.length < maxPages then
      mapLoop base fetch maxPages fuel (mapStep base fetch st)
    else st

/-- The initial map state: empty visited set, the seed as sole frontier
entry. -/
def mapInit (url : String) : MapState :=
  { visited := [], sitemap := [], queue := [url] }

/-! ## `search_and_scrape` (search mode)

One upstream search fetch; on its failure the whole job fails.  On success
the first `num_results` result links are each scraped with `scrape_single`,
and only the successful scrapes are appended to the result list;
`results_found = len(results)` counts them.  The upstream fetch outcome and
per-result scrape successes are oracles. -/

structure SearchPayload where
  success : Bool
  query : String
  resultsFound : Nat
  results : List String
  errorMsg : Option String

/-- Embedding of `FirecrawlScraper.search_and_scrape(query, num_results)`.
`upstream` is the outcome of fetching the search page: an exception, or the
list of result-anchor URLs in page order (already scheme-completed).
`scrapeOK u` tells whether `scrape_single(u)` reported success. -/
def search_and_scrape (upstream : Except FetchErr (List String))
    (scrapeOK : String → Bool) (numResults : Nat) (query : String) :
    SearchPayload :=
  match upstream with
  | .error e =>
    { success := false, query := query, resultsFound := 0, results := [],
      errorMsg := some (fetchErrMsg e) }
  | .ok urls =>
    let succ := (urls.take numResults).filter scrapeOK
    { success := true, query := query, resultsFound := succ.length,
      results := succ, errorMsg := none }

/-! ## Basic lemmas about the embedding -/

theorem memb_iff {x : String} {l : List String} : memb x l = true ↔ x ∈ l := by
  simp [memb, List.any_eq_true, beq_iff_eq]

theorem memb_eq_false_iff {x : String} {l : List String} :
    memb x l = false ↔ x ∉ l := by
  rw [← Bool.not_eq_true, not_iff_not, memb_iff]

/-- The filter admits only same-domain URLs: the domain test is its first,
unconditional check. -/
theorem should_crawl_netloc {m : String → String → Bool}
    {url b : String} {incl excl : List String}
    (h : should_crawl m url b incl excl = true) : netlocOf url = b := by
  rcases eq_or_ne (netlocOf url) b with he | he
  · exact he
  · exfalso
    unfold should_crawl at h
    rw [if_pos (bne_iff_ne.mpr he)] at h
    exact Bool.false_ne_true h

/-- Fragment stripping does not change the netloc (the fragment begins at
the first `#`, which also terminates `urlparse`'s netloc scan). -/
theorem netlocOf_stripFragment (u : String) :
    netlocOf (stripFragment u) = netlocOf u := by
  unfold netlocOf stripFragment netlocChars
  have : (String.mk (u.toList.takeWhile (fun c => c != '#'))).toList
      = u.toList.takeWhile (fun c => c != '#') := rfl
  rw [this, List.takeWhile_idem]

theorem admitBatch_tasks_mem {b : List String} {v : List String} {x : String}
    (h : x ∈ (admitBatch v b).1) : x ∈ b := by
  induction b generalizing v with
  | nil => simp [admitBatch] at h
  | cons u rest ih =>
    by_cases hm : memb u v = true
    · simp only [admitBatch, if_pos hm] at h
      exact List.mem_cons_of_mem _ (ih h)
    · simp only [admitBatch, if_neg hm] at h
      rcases List.mem_cons.mp h with rfl | h'
      · exact List.mem_cons_self _ _
      · exact List.mem_cons_of_mem _ (ih h')

theorem admitBatch_visited_mem {b v : List String} {x : String} :
    x ∈ (admitBatch v b).2 ↔ x ∈ (admitBatch v b).1 ∨ x ∈ v := by
  induction b generalizing v with
  | nil => simp [admitBatch]
  | cons u rest ih =>
    by_cases hm : memb u v = true
    · simp only [admitBatch, if_pos hm]
      exact ih
    · simp only [admitBatch, if_neg hm]
      rw [ih]
      simp [List.mem_cons]
      tauto

theorem admitBatch_tasks_nodup_disj {b v : List String} :
    (admitBatch v b).1.Nodup ∧ ∀ x ∈ (admitBatch v b).1, x ∉ v := by
  induction b generalizing v with
  | nil => simp [admitBatch]
  | cons u rest ih =>
    by_cases hm : memb u v = true
    · simp only [admitBatch, if_pos hm]
      exact ih
    · simp only [admitBatch, if_neg hm]
      obtain ⟨hnd, hdisj⟩ := @ih (u :: v)
      refine ⟨List.nodup_cons.mpr ⟨fun hu => ?_, hnd⟩, ?_⟩
      · exact hdisj u hu (List.mem_cons_self u v)
      · intro x hx
        rcases List.mem_cons.mp hx with rfl | hx'
        · exact fun hxv => hm (memb_iff.mpr hxv)
        · exact fun hxv => hdisj x hx' (List.mem_cons_of_mem _ hxv)

theorem admitBatch_tasks_length {b v : List String} :
    (admitBatch v b).1.length ≤ b.length := by
  induction b generalizing v with
  | nil => simp [admitBatch]
  | cons u rest ih =>
    by_cases hm : memb u v = true
    · simp only [admitBatch, if_pos hm, List.length_cons]
      exact Nat.le_succ_of_le ih
    · simp only [admitBatch, if_neg hm, List.length_cons]
      exact Nat.succ_le_succ ih

theorem processResults_fst_mem {C : CrawlConfig} {v ts : List String} {x : String}
    (h : x ∈ (processResults C v ts).1) : x ∈ ts ∧ (C.fetch x).isSome := by
  induction ts with
  | nil => simp [processResults] at h
  | cons u rest ih =>
    rcases hf : C.fetch u with _ | links
    · simp only [processResults, hf] at h
      obtain ⟨h1, h2⟩ := ih h
      exact ⟨List.mem_cons_of_mem _ h1, h2⟩
    · simp only [processResults, hf] at h
      rcases List.mem_cons.mp h with rfl | h'
      · exact ⟨List.mem_cons_self _ _, by simp [hf]⟩
      · obtain ⟨h1, h2⟩ := ih h'
        exact ⟨List.mem_cons_of_mem _ h1, h2⟩

theorem processResults_fst_length {C : CrawlConfig} {v ts : List String} :
    (processResults C v ts).1.length ≤ ts.length := by
  induction ts with
  | nil => simp [processResults]
  | cons u rest ih =>
    rcases hf : C.fetch u with _ | links
    · simp only [processResults, hf]
      exact Nat.le_succ_of_le ih
    · simp only [processResults, hf, List.length_cons]
      exact Nat.succ_le_succ ih

theorem processResults_snd_mem {C : CrawlConfig} {v ts : List String} {l : String}
    (h : l ∈ (processResults C v ts).2) : linkAdmissible C v l = true := by
  induction ts with
  | nil => simp [processResults] at h
  | cons u rest ih =>
    rcases hf : C.fetch u with _ | links
    · simp only [processResults, hf] at h
      exact ih h
    · simp only [processResults, hf] at h
      rcases List.mem_append.mp h with h' | h'
      · exact (List.mem_filter.mp h').2
      · exact ih h'

/-! ## Loop-level lemmas for `crawl_site` -/

theorem crawlStep_results_mono {C : CrawlConfig} {st : CrawlState} {x : String}
    (h : x ∈ st.results) : x ∈ (crawlStep C st).results := by
  simp only [crawlStep, List.mem_append]
  exact Or.inl h

theorem crawlStep_dispatched_mono {C : CrawlConfig} {st : CrawlState} {x : String}
    (h : x ∈ st.dispatched) : x ∈ (crawlStep C st).dispatched := by
  simp only [crawlStep, List.mem_append]
  exact Or.inl h

theorem crawlLoop_results_mono {C : CrawlConfig} {fuel : Nat} {st : CrawlState}
    {x : String} (h : x ∈ st.results) : x ∈ (crawlLoop C fuel st).results := by
  induction fuel generalizing st with
  | zero => exact h
  | succ n ih =>
    simp only [crawlLoop]
    split
    · exact ih (crawlStep_results_mono h)
    · exact h

theorem crawlLoop_dispatched_mono {C : CrawlConfig} {fuel : Nat} {st : CrawlState}
    {x : String} (h : x ∈ st.dispatched) : x ∈ (crawlLoop C fuel st).dispatched := by
  induction fuel generalizing st with
  | zero => exact h
  | succ n ih =>
    simp only [crawlLoop]
    split
    · exact ih (crawlStep_dispatched_mono h)
    · exact h

/-- Invariant-preservation principle for the crawl loop: a property holding
initially and preserved by every guarded step holds of the loop's result. -/
theorem crawlLoop_inv {C : CrawlConfig} (P : CrawlState → Prop)
    (hstep : ∀ st, P st → st.queue ≠ [] → st.results.length < C.maxPages →
      P (crawlStep C st)) :
    ∀ fuel st, P st → P (crawlLoop C fuel st) := by
  intro fuel
  induction fuel with
  | zero => intro st h; exact h
  | succ n ih =>
    intro st h
    simp only [crawlLoop]
    split
    case isTrue hg => exact ih _ (hstep st h hg.1 hg.2)
    case isFalse => exact h

/-- One guarded step grows the result list by at most the concurrency
bound: a batch has at most `conc` URLs, dispatches at most that many tasks
and collects at most one result per task. -/
theorem crawlStep_results_length {C : CrawlConfig} {st : CrawlState} :
    (crawlStep C st).results.length ≤ st.results.length + C.conc := by
  simp only [crawlStep, List.length_append]
  have h1 : (processResults C (admitBatch st.visited (st.queue.take C.conc)).2
      (admitBatch st.visited (st.queue.take C.conc)).1).1.length
      ≤ (admitBatch st.visited (st.queue.take C.conc)).1.length :=
    processResults_fst_length
  have h2 : (admitBatch st.visited (st.queue.take C.conc)).1.length
      ≤ (st.queue.take C.conc).length := admitBatch_tasks_length
  have h3 : (st.queue.take C.conc).length ≤ C.conc := by
    simp [List.length_take]
  omega

/-- The crawl-loop page-count bound: the result list never exceeds
`max_pages + conc - 1` entries (the loop re-checks `len(results) <
max_pages` only between batches, and a full batch of successes can be
appended after the last check). -/
theorem crawlLoop_length_bound (C : CrawlConfig) (fuel : Nat) (start : String) :
    (crawlLoop C fuel (crawlInit start)).results.length
      ≤ C.maxPages + C.conc - 1 := by
  have := @crawlLoop_inv C
    (fun st => st.results.length ≤ C.maxPages + C.conc - 1)
    (fun st _ _ hlt => by
      have hs := @crawlStep_results_length C st
      omega)
    fuel (crawlInit start) (by simp [crawlInit])
  exact this

/-- Once the loop guard fails — the frontier is empty or the page budget is
reached — the loop is a fixpoint: no further batch is dispatched. -/
theorem crawlLoop_stopped {C : CrawlConfig} {st : CrawlState} (fuel : Nat)
    (h : st.queue = [] ∨ C.maxPages ≤ st.results.length) :
    crawlLoop C fuel st = st := by
  cases fuel with
  | zero => rfl
  | succ n =>
    simp only [crawlLoop]
    rw [if_neg]
    rintro ⟨hq, hlt⟩
    rcases h with h | h
    · exact hq h
    · omega

/-- The dedup invariant of the crawl loop: the dispatch trace never repeats
a URL, and a URL has been dispatched exactly when it is in the visited set. -/
theorem crawlLoop_dispatch_nodup (C : CrawlConfig) (fuel : Nat) (start : String) :
    (crawlLoop C fuel (crawlInit start)).dispatched.Nodup ∧
      ∀ x, x ∈ (crawlLoop C fuel (crawlInit start)).dispatched ↔
        x ∈ (crawlLoop C fuel (crawlInit start)).visited := by
  have := @crawlLoop_inv C
    (fun st => st.dispatched.Nodup ∧ ∀ x, x ∈ st.dispatched ↔ x ∈ st.visited)
    (fun st hP _ _ => by
      obtain ⟨hnd, hiff⟩ := hP
      obtain ⟨htnd, htdisj⟩ :=
        @admitBatch_tasks_nodup_disj (st.queue.take C.conc) st.visited
      constructor
      · refine hnd.append htnd ?_
        intro a ha hat
        exact htdisj a hat ((hiff a).mp ha)
      · intro x
        simp only [crawlStep, List.mem_append]
        rw [hiff x, admitBatch_visited_mem]
        tauto)
    fuel (crawlInit start) (by simp [crawlInit])
  exact this

/-- Domain confinement for the crawl loop: starting from a seed whose
netloc is the configured base domain, every URL ever held in the frontier
and every URL ever admitted to the visited set has that same netloc. -/
theorem crawlLoop_domain (C : CrawlConfig) (fuel : Nat) (start : String)
    (hb : C.baseDomain = netlocOf start) :
    (∀ u ∈ (crawlLoop C fuel (crawlInit start)).queue, netlocOf u = C.baseDomain) ∧
      ∀ u ∈ (crawlLoop C fuel (crawlInit start)).visited, netlocOf u = C.baseDomain := by
  have := @crawlLoop_inv C
    (fun st => (∀ u ∈ st.queue, netlocOf u = C.baseDomain) ∧
      ∀ u ∈ st.visited, netlocOf u = C.baseDomain)
    (fun st hP _ _ => by
      obtain ⟨hq, hv⟩ := hP
      constructor
      · intro u hu
        simp only [crawlStep, List.mem_append] at hu
        rcases hu with hu | hu
        · exact hq u (List.mem_of_mem_drop hu)
        · have hadm := processResults_snd_mem hu
          simp only [linkAdmissible, Bool.and_eq_true] at hadm
          exact should_crawl_netloc hadm.1
      · intro u hu
        simp only [crawlStep] at hu
        rcases admitBatch_visited_mem.mp hu with hu | hu
        · exact hq u (List.mem_of_mem_take (admitBatch_tasks_mem hu))
        · exact hv u hu)
    fuel (crawlInit start) (by simp [crawlInit, hb])
  exact this

/-- The crawl result list holds only pages whose `_crawl_page` dispatch
succeeded: a page whose fetch fails is never appended. -/
theorem crawlLoop_results_ok (C : CrawlConfig) (fuel : Nat) (start : String) :
    ∀ u ∈ (crawlLoop C fuel (crawlInit start)).results, (C.fetch u).isSome := by
  have := @crawlLoop_inv C
    (fun st => ∀ u ∈ st.results, (C.fetch u).isSome)
    (fun st hP _ _ => by
      intro u hu
      simp only [crawlStep, List.mem_append] at hu
      rcases hu with hu | hu
      · exact hP u hu
      · exact (processResults_fst_mem hu).2)
    fuel (crawlInit start) (by simp [crawlInit])
  exact this

/-- When the seed's fetch succeeds and at least one page is allowed, the
very first batch dispatches the seed and appends it to the results — no
`_should_crawl` check is ever consulted for the seed. -/
theorem crawlLoop_seed_in_results (C : CrawlConfig) (fuel : Nat) (start : String)
    (hfuel : 1 ≤ fuel) (hconc : 1 ≤ C.conc) (hmax : 1 ≤ C.maxPages)
    (hf : (C.fetch start).isSome) :
    start ∈ (crawlLoop C fuel (crawlInit start)).results ∧
      start ∈ (crawlLoop C fuel (crawlInit start)).dispatched := by
  obtain ⟨n, rfl⟩ : ∃ n, fuel = n + 1 := ⟨fuel - 1, by omega⟩
  have hguard : (crawlInit start).queue ≠ [] ∧
      (crawlInit start).results.length < C.maxPages := by
    constructor
    · simp [crawlInit]
    · have h0 : (crawlInit start).results.length = 0 := rfl
      omega
  have hstep : crawlLoop C (n + 1) (crawlInit start)
      = crawlLoop C n (crawlStep C (crawlInit start)) := by
    simp only [crawlLoop]
    rw [if_pos hguard]
  have htake : (crawlInit start).queue.take C.conc = [start] := by
    obtain ⟨k, hk⟩ : ∃ k, C.conc = k + 1 := ⟨C.conc - 1, by omega⟩
    rw [hk]
    simp [crawlInit]
  have hadmit : admitBatch (crawlInit start).visited
      ((crawlInit start).queue.take C.conc) = ([start], [start]) := by
    rw [htake]
    simp [crawlInit, admitBatch, memb]
  obtain ⟨links, hlinks⟩ := Option.isSome_iff_exists.mp hf
  have hres : start ∈ (crawlStep C (crawlInit start)).results := by
    simp only [crawlStep, hadmit, List.mem_append]
    right
    simp only [processResults, hlinks]
    exact List.mem_cons_self _ _
  have hdisp : start ∈ (crawlStep C (crawlInit start)).dispatched := by
    simp only [crawlStep, hadmit, List.mem_append]
    right
    exact List.mem_cons_self _ _
  rw [hstep]
  exact ⟨crawlLoop_results_mono hres, crawlLoop_dispatched_mono hdisp⟩

/-! ## Loop-level lemmas for `map_site` -/

/-- Invariant-preservation principle for the map loop. -/
theorem mapLoop_inv {base : String} {fetch : String → Option (List String)}
    {maxPages : Nat} (P : MapState → Prop)
    (hstep : ∀ st, P st → P (mapStep base fetch st)) :
    ∀ fuel st, P st → P (mapLoop base fetch maxPages fuel st) := by
  intro fuel
  induction fuel with
  | zero => intro st h; exact h
  | succ n ih =>
    intro st h
    simp only [mapLoop]
    split
    · exact ih _ (hstep st h)
    · exact h

/-- Domain confinement for the map loop: every URL ever held in the
frontier, every visited URL and every sitemap entry has the base netloc,
when the seed does. -/
theorem mapLoop_domain (base : String) (fetch : String → Option (List String))
    (maxPages fuel : Nat) (start : String) (hb : base = netlocOf start) :
    (∀ u ∈ (mapLoop base fetch maxPages fuel (mapInit start)).queue,
        netlocOf u = base) ∧
      (∀ u ∈ (mapLoop base fetch maxPages fuel (mapInit start)).visited,
        netlocOf u = base) ∧
      ∀ e ∈ (mapLoop base fetch maxPages fuel (mapInit start)).sitemap,
        netlocOf e.url = base := by
  have := @mapLoop_inv base fetch maxPages
    (fun st => (∀ u ∈ st.queue, netlocOf u = base) ∧
      (∀ u ∈ st.visited, netlocOf u = base) ∧
      ∀ e ∈ st.sitemap, netlocOf e.url = base)
    (fun st hP => by
      obtain ⟨hq, hv, hs⟩ := hP
      rcases hqe : st.queue with _ | ⟨u, rest⟩
      · simpa [mapStep, hqe] using ⟨hv, hs⟩
      · have hql : ∀ x ∈ rest, netlocOf x = base := by
          intro x hx
          exact hq x (hqe ▸ List.mem_cons_of_mem _ hx)
        have hu : netlocOf u = base := hq u (hqe ▸ List.mem_cons_self _ _)
        by_cases hm : memb u st.visited = true
        · simp only [mapStep, hqe, if_pos hm]
          exact ⟨hql, hv, hs⟩
        · rcases hf : fetch u with _ | links
          · simp only [mapStep, hqe, if_neg hm, hf]
            refine ⟨hql, ?_, hs⟩
            intro x hx
            rcases List.mem_cons.mp hx with rfl | hx'
            · exact hu
            · exact hv x hx'
          · simp only [mapStep, hqe, if_neg hm, hf]
            refine ⟨?_, ?_, ?_⟩
            · intro x hx
              rcases List.mem_append.mp hx with hx' | hx'
              · exact hql x hx'
              · obtain ⟨l, hl, rfl⟩ := List.mem_map.mp hx'
                have hfl := (List.mem_filter.mp hl).2
                rw [Bool.and_eq_true] at hfl
                have : netlocOf l = base := by
                  have := hfl.1
                  exact eq_of_beq this
                rw [netlocOf_stripFragment]
                exact this
            · intro x hx
              rcases List.mem_cons.mp hx with rfl | hx'
              · exact hu
              · exact hv x hx'
            · intro e he
              rcases List.mem_append.mp he with he' | he'
              · exact hs e he'
              · rcases List.mem_singleton.mp he' with rfl
                exact hu)
    fuel (mapInit start) (by simp [mapInit, hb])
  exact this

/-- Every sitemap entry the map loop records comes from a successful fetch
and carries the classifier's page type for its URL: a page that raises is
silently skipped. -/
theorem mapLoop_sitemap_ok (base : String) (fetch : String → Option (List String))
    (maxPages fuel : Nat) (start : String) :
    ∀ e ∈ (mapLoop base fetch maxPages fuel (mapInit start)).sitemap,
      (fetch e.url).isSome ∧ e.pageType = classify_page_type e.url := by
  have := @mapLoop_inv base fetch maxPages
    (fun st => ∀ e ∈ st.sitemap,
      (fetch e.url).isSome ∧ e.pageType = classify_page_type e.url)
    (fun st hP => by
      intro e he
      rcases hqe : st.queue with _ | ⟨u, rest⟩
      · rw [mapStep, hqe] at he
        exact hP e he
      · by_cases hm : memb u st.visited = true
        · simp only [mapStep, hqe, if_pos hm] at he
          exact hP e he
        · rcases hf : fetch u with _ | links
          · simp only [mapStep, hqe, if_neg hm, hf] at he
            exact hP e he
          · simp only [mapStep, hqe, if_neg hm, hf] at he
            rcases List.mem_append.mp he with he' | he'
            · exact hP e he'
            · rcases List.mem_singleton.mp he' with rfl
              simp [hf])
    fuel (mapInit start) (by simp [mapInit])
  exact this

/-! ## Lemmas about the normalization steps -/

theorem stripList_append (bad : List String) (l1 l2 : List HNode) :
    stripList bad (l1 ++ l2) = stripList bad l1 ++ stripList bad l2 := by
  induction l1 with
  | nil => simp [stripList]
  | cons c cs ih => simp [stripList, ih]

theorem textsList_append (l1 l2 : List HNode) :
    textsList (l1 ++ l2) = textsList l1 ++ textsList l2 := by
  induction l1 with
  | nil => simp [textsList]
  | cons c cs ih => simp [textsList, ih]

/-- An element whose tag is in the strip set vanishes entirely, with its
whole subtree, under the decompose step. -/
theorem stripNode_bad {bad : List String} {t : String} (h : t ∈ bad)
    (cs : List HNode) : stripNode bad (.elem t cs) = [] := by
  simp [stripNode, memb_iff.mpr h]

/-- Inserting an element whose tag is in the strip set anywhere among the
children of a node changes nothing about the stripped-and-collected text:
the central content-removal property of `_extract_text` /
`_html_to_markdown`. -/
theorem textsList_strip_insert {bad : List String} {t : String} (h : t ∈ bad)
    (d : String) (pre post cs : List HNode) :
    textsList (stripNode bad (.elem d (pre ++ .elem t cs :: post)))
      = textsList (stripNode bad (.elem d (pre ++ post))) := by
  by_cases hd : memb d bad = true
  · simp [stripNode, hd]
  · simp only [stripNode, if_neg hd]
    have : stripList bad (pre ++ HNode.elem t cs :: post)
        = stripList bad (pre ++ post) := by
      have h1 : (HNode.elem t cs :: post) = [HNode.elem t cs] ++ post := rfl
      rw [h1, stripList_append, stripList_append, stripList_append]
      have h2 : stripList bad [HNode.elem t cs] = [] := by
        simp [stripList, stripNode_bad h]
      rw [h2]
      simp
    rw [this]

/-! ## Lemmas about the retried Fetcher -/

/-- The retry wrapper issues between one and three attempts. -/
theorem fetchAttemptCount_le (o : Nat → Except FetchErr HNode) :
    1 ≤ fetchAttemptCount o ∧ fetchAttemptCount o ≤ 3 := by
  unfold fetchAttemptCount
  rcases o 1 with _ | _ <;> rcases o 2 with _ | _ <;> simp

/-- A first-attempt failure is always retried, whatever the error was:
tenacity's default retry predicate does not inspect the exception. -/
theorem fetch_retries_any_error (o : Nat → Except FetchErr HNode)
    (e : FetchErr) (h : o 1 = .error e) : 2 ≤ fetchAttemptCount o := by
  unfold fetchAttemptCount
  rw [h]
  rcases o 2 with _ | _ <;> simp

/-- The number of attempts depends only on the success/failure pattern of
the attempts, never on which error a failing attempt raised. -/
theorem fetchAttemptCount_kind_blind (o o' : Nat → Except FetchErr HNode)
    (h : ∀ i, attemptOk (o i) = attemptOk (o' i)) :
    fetchAttemptCount o = fetchAttemptCount o' := by
  unfold fetchAttemptCount
  have h1 := h 1
  have h2 := h 2
  rcases ho1 : o 1 with e1 | p1 <;> rcases ho1' : o' 1 with e1' | p1' <;>
    rcases ho2 : o 2 with e2 | p2 <;> rcases ho2' : o' 2 with e2' | p2' <;>
    simp_all [attemptOk]

/-! ## Claim C5 — URL filter decision order -/

/-- C5: the URL filter decides admission in this fixed order, first match
winning: (1) reject if the candidate's host differs from the origin domain;
(2) reject if any exclude pattern matches; (3) if include patterns are
supplied, admit iff at least one matches, otherwise reject; (4) with no
include patterns, reject URLs ending in a known non-content extension;
(5) otherwise admit.  Consequently a URL matching both an include and an
exclude pattern is rejected. -/
theorem C5_url_filter_decision_order :
    ∀ (m : String → String → Bool) (url b : String) (incl excl : List String),
      (netlocOf url ≠ b → should_crawl m url b incl excl = false)
      ∧ ((∃ p ∈ excl, m p url = true) → should_crawl m url b incl excl = false)
      ∧ (netlocOf url = b → (∀ p ∈ excl, m p url = false) → incl ≠ [] →
          should_crawl m url b incl excl = incl.any (fun p => m p url))
      ∧ (netlocOf url = b → (∀ p ∈ excl, m p url = false) → incl = [] →
          should_crawl m url b incl excl
            = !(exclude_extensions.any (fun ext => strEndsWith (urlLower url) ext)))
      ∧ ((∃ p ∈ incl, m p url = true) → (∃ p ∈ excl, m p url = true) →
          should_crawl m url b incl excl = false) := by
  intro m url b incl excl
  have hreject : (∃ p ∈ excl, m p url = true) →
      should_crawl m url b incl excl = false := by
    rintro ⟨p, hp, hm⟩
    unfold should_crawl
    by_cases hn : (netlocOf url != b) = true
    · rw [if_pos hn]
    · rw [if_neg hn, if_pos (List.any_eq_true.mpr ⟨p, hp, hm⟩)]
  refine ⟨?_, hreject, ?_, ?_, fun _ => hreject⟩
  · intro h
    unfold should_crawl
    rw [if_pos (bne_iff_ne.mpr h)]
  · intro hnet hex hne
    unfold should_crawl
    have h1 : ¬(netlocOf url != b) = true := by simp [hnet]
    have h2 : ¬(excl.any (fun p => m p url)) = true := by
      intro hc
      obtain ⟨p, hp, hm⟩ := List.any_eq_true.mp hc
      rw [hex p hp] at hm
      exact Bool.false_ne_true hm
    have h3 : (!incl.isEmpty) = true := by
      simp [List.isEmpty_iff, hne]
    rw [if_neg h1, if_neg h2, if_pos h3]
  · intro hnet hex hemp
    unfold should_crawl
    have h1 : ¬(netlocOf url != b) = true := by simp [hnet]
    have h2 : ¬(excl.any (fun p => m p url)) = true := by
      intro hc
      obtain ⟨p, hp, hm⟩ := List.any_eq_true.mp hc
      rw [hex p hp] at hm
      exact Bool.false_ne_true hm
    have h3 : ¬(!incl.isEmpty) = true := by
      simp [hemp]
    rw [if_neg h1, if_neg h2, if_neg h3]
    by_cases h4 : (exclude_extensions.any
        (fun ext => strEndsWith (urlLower url) ext)) = true
    · rw [if_pos h4, h4]
      rfl
    · rw [if_neg h4]
      simp only [Bool.not_eq_true] at h4
      rw [h4]
      rfl

/-- Witness for C5, at the input from the claim's final sentence: a URL on
the right domain matching both an include and an exclude pattern is
rejected. -/
theorem C5_witness :
    should_crawl reSearchLit "https://a.example/blog" "a.example"
      ["blog"] ["blog"] = false :=
  (C5_url_filter_decision_order reSearchLit "https://a.example/blog" "a.example"
      ["blog"] ["blog"]).2.2.2.2
    ⟨"blog", by decide, by decide⟩ ⟨"blog", by decide, by decide⟩

/-! ## Claim C8 — map-mode page-type classification -/

/-- Counterexample to C8 as stated: the claim's fifth rule classifies by the
*path* ending in `/` or `.html`, but the source tests the full URL string
(`url_lower.endswith`).  On a URL whose query string ends in `.html` while
its path does not, the code returns `page` where the claim's rules give
`other`. -/
theorem C8_counterexample :
    classify_page_type "https://x.example/y?z=.html" = "page"
      ∧ classify_page_type_claimC8 "https://x.example/y?z=.html" = "other"
      ∧ classify_page_type_claimC8 "https://x.example/y?z=.html"
          ≠ classify_page_type "https://x.example/y?z=.html" := by
  refine ⟨by decide, by decide, by decide⟩

/-- C8 (amended): page-type classification applies the keyword rules in the
claimed order with the first match winning — contact/about/team → contact,
blog/news/article → content, product/service/solution → product,
pricing/plan → pricing — but the next rule tests the full lowercased URL
*string* (not its path) ending in `/` or `.html` → page, else other; every
classification lies in the enum {contact, content, product, pricing, page,
other}. -/
theorem C8_classify_page_type_rules :
    ∀ url : String,
      (containsAny (urlLower url) ["contact", "about", "team"] = true →
        classify_page_type url = "contact")
      ∧ (containsAny (urlLower url) ["contact", "about", "team"] = false →
         containsAny (urlLower url) ["blog", "news", "article"] = true →
        classify_page_type url = "content")
      ∧ (containsAny (urlLower url) ["contact", "about", "team"] = false →
         containsAny (urlLower url) ["blog", "news", "article"] = false →
         containsAny (urlLower url) ["product", "service", "solution"] = true →
        classify_page_type url = "product")
      ∧ (containsAny (urlLower url) ["contact", "about", "team"] = false →
         containsAny (urlLower url) ["blog", "news", "article"] = false →
         containsAny (urlLower url) ["product", "service", "solution"] = false →
         containsAny (urlLower url) ["pricing", "plan"] = true →
        classify_page_type url = "pricing")
      ∧ (containsAny (urlLower url) ["contact", "about", "team"] = false →
         containsAny (urlLower url) ["blog", "news", "article"] = false →
         containsAny (urlLower url) ["product", "service", "solution"] = false →
         containsAny (urlLower url) ["pricing", "plan"] = false →
         (strEndsWith (urlLower url) "/" || strEndsWith (urlLower url) ".html") = true →
        classify_page_type url = "page")
      ∧ (containsAny (urlLower url) ["contact", "about", "team"] = false →
         containsAny (urlLower url) ["blog", "news", "article"] = false →
         containsAny (urlLower url) ["product", "service", "solution"] = false →
         containsAny (urlLower url) ["pricing", "plan"] = false →
         (strEndsWith (urlLower url) "/" || strEndsWith (urlLower url) ".html") = false →
        classify_page_type url = "other")
      ∧ classify_page_type url
          ∈ (["contact", "content", "product", "pricing", "page", "other"] :
              List String) := by
  intro url
  refine ⟨?_, ?_, ?_, ?_, ?_, ?_, ?_⟩
  · intro h1
    simp [classify_page_type, h1]
  · intro h1 h2
    simp [classify_page_type, h1, h2]
  · intro h1 h2 h3
    simp [classify_page_type, h1, h2, h3]
  · intro h1 h2 h3 h4
    simp [classify_page_type, h1, h2, h3, h4]
  · intro h1 h2 h3 h4 h5
    simp [classify_page_type, h1, h2, h3, h4, h5]
  · intro h1 h2 h3 h4 h5
    simp [classify_page_type, h1, h2, h3, h4, h5]
  · simp only [classify_page_type]
    split_ifs <;> simp

/-- Witness for C8 at a concrete URL: the first rule fires. -/
theorem C8_witness :
    classify_page_type "https://a.example/contact" = "contact" :=
  (C8_classify_page_type_rules "https://a.example/contact").1 (by decide)

/-! ## Claim C4 — retry only on transient failures -/

/-- An attempt oracle that raises HTTP 404 — a non-transient status in the
claim's taxonomy (4xx, not 429) — on every attempt. -/
def o404 : Nat → Except FetchErr HNode := fun _ => .error (.httpStatus 404)

/-- Counterexample to C4 as stated: a fetch failing with HTTP 404 on every
attempt is retried to the full three attempts, although the claim says a
4xx other than 429 fails immediately without any retry (the tenacity
decorator's default retry predicate retries every exception, never
inspecting it). -/
theorem C4_counterexample :
    fetchAttemptCount o404 = 3 ∧ fetchAttemptCount o404 ≠ 1 := by
  exact ⟨rfl, by decide⟩

/-- C4 (amended): the Fetcher's retry wrapper treats every failure
uniformly — it issues between 1 and 3 attempts, retries any first-attempt
failure whatever the raised error was (connection errors, timeouts, any
HTTP status, malformed URLs alike), and the number of attempts depends only
on the success/failure pattern of the attempts, never on the kind of
error; there is no immediate-failure path for non-transient errors. -/
theorem C4_retry_uniform :
    (∀ o : Nat → Except FetchErr HNode,
      1 ≤ fetchAttemptCount o ∧ fetchAttemptCount o ≤ 3)
    ∧ (∀ (o : Nat → Except FetchErr HNode) (e : FetchErr),
        o 1 = Except.error e → 2 ≤ fetchAttemptCount o)
    ∧ (∀ o o' : Nat → Except FetchErr HNode,
        (∀ i, attemptOk (o i) = attemptOk (o' i)) →
        fetchAttemptCount o = fetchAttemptCount o') :=
  ⟨fetchAttemptCount_le, fetch_retries_any_error, fetchAttemptCount_kind_blind⟩

/-- Witness for C4 at the concrete 404 oracle: the 404 failure is retried. -/
theorem C4_witness : 2 ≤ fetchAttemptCount o404 :=
  C4_retry_uniform.2.1 o404 (.httpStatus 404) rfl

/-! ## Claim C9 — retry exhaustion -/

/-- C9: for a fetch target failing transiently on every attempt, the
Fetcher issues exactly 3 attempts, the backoff delays slept between the
attempts are non-decreasing (2s then 4s, from the exponential policy capped
at 10s), and the caller of `scrape_single` receives a failure result
carrying the URL and the cause rather than a success result. -/
theorem C9_retry_exhaustion :
    ∀ (o : Nat → Except FetchErr HNode) (e1 e2 e3 : FetchErr) (url : String),
      o 1 = .error e1 → o 2 = .error e2 → o 3 = .error e3 →
      fetchAttemptCount o = 3
      ∧ fetch_page o = .error e3
      ∧ List.Chain' (· ≤ ·) (backoffDelays (fetchAttemptCount o))
      ∧ (scrape_single o url).success = false
      ∧ (scrape_single o url).url = url
      ∧ (scrape_single o url).errorMsg = some (fetchErrMsg e3) := by
  intro o e1 e2 e3 url h1 h2 h3
  have hc : fetchAttemptCount o = 3 := by
    unfold fetchAttemptCount
    rw [h1, h2]
  have hp : fetch_page o = .error e3 := by
    unfold fetch_page
    rw [h1, h2, h3]
  refine ⟨hc, hp, ?_, ?_, ?_, ?_⟩
  · rw [hc]
    have hb : backoffDelays 3 = [2, 4] := rfl
    rw [hb]
    exact List.chain'_cons.mpr ⟨by omega, List.chain'_singleton 4⟩
  · simp [scrape_single, hp]
  · simp [scrape_single, hp]
  · simp [scrape_single, hp]

/-- An attempt oracle that times out on every attempt (the claim's
always-times-out Fetcher mock). -/
def oTimeout : Nat → Except FetchErr HNode := fun _ => .error .timeout

/-- Witness for C9 at the concrete always-timeout oracle. -/
theorem C9_witness :
    fetchAttemptCount oTimeout = 3
    ∧ fetch_page oTimeout = .error .timeout
    ∧ List.Chain' (· ≤ ·) (backoffDelays (fetchAttemptCount oTimeout))
    ∧ (scrape_single oTimeout "https://x.example/").success = false
    ∧ (scrape_single oTimeout "https://x.example/").url = "https://x.example/"
    ∧ (scrape_single oTimeout "https://x.example/").errorMsg
        = some (fetchErrMsg .timeout) :=
  C9_retry_exhaustion oTimeout .timeout .timeout .timeout "https://x.example/"
    rfl rfl rfl

/-! ## Claim C7 — non-content strip sets of the Normalizer -/

/-- A page with content inside a `header` element. -/
def headerDoc : HNode :=
  .elem "div" [.elem "header" [.text "HDR"], .text "Body"]

/-- Counterexample to C7 as stated: `_extract_text` strips only script,
style, nav and footer — a `header` element's content survives into the
plain-text output (`HDR` below), although the claim says header (and aside)
are stripped before producing the text output.  The markdown step, whose
strip set does include header and aside, removes it. -/
theorem C7_counterexample :
    extract_text headerDoc = "HDR Body"
      ∧ html_to_markdown headerDoc = "Body" := by
  exact ⟨rfl, rfl⟩

/-- C7 (amended): the plain-text normalization strips script, style, nav
and footer (but not header or aside, which survive into the text output),
while the markdown normalization strips all six of script, style, nav,
footer, header and aside: inserting an element with a tag from the
respective strip set anywhere in the tree leaves the respective output
unchanged. -/
theorem C7_strip_sets :
    (∀ t ∈ text_strip_tags, ∀ (d : String) (pre post cs : List HNode),
      extract_text (.elem d (pre ++ .elem t cs :: post))
        = extract_text (.elem d (pre ++ post)))
    ∧ (∀ t ∈ markdown_strip_tags, ∀ (d : String) (pre post cs : List HNode),
      html_to_markdown (.elem d (pre ++ .elem t cs :: post))
        = html_to_markdown (.elem d (pre ++ post))) := by
  constructor
  · intro t ht d pre post cs
    unfold extract_text
    rw [textsList_strip_insert ht]
  · intro t ht d pre post cs
    simp only [html_to_markdown]
    rw [textsList_strip_insert ht]

/-- Witness for C7 at a concrete tree: a script element's content does not
reach the text output. -/
theorem C7_witness :
    extract_text (HNode.elem "div"
        ([] ++ HNode.elem "script" [HNode.text "x"] :: [HNode.text "B"]))
      = extract_text (HNode.elem "div" ([] ++ [HNode.text "B"])) :=
  C7_strip_sets.1 "script" (by decide) "div" [] [HNode.text "B"] [HNode.text "x"]

/-! ## Claim C1 — page-limit invariant -/

/-- Seed of the C1 run. -/
def c1Seed : String := "https://a.example/"

/-- A fetch oracle for the C1 run: the seed links to five same-domain
pages, all of which fetch successfully with no further links. -/
def c1Fetch : String → Option (List String) :=
  fun u =>
    if u == "https://a.example/" then
      some ["https://a.example/p1", "https://a.example/p2",
            "https://a.example/p3", "https://a.example/p4",
            "https://a.example/p5"]
    else some []

/-- The C1 crawl configuration: the default concurrency
`MAX_CONCURRENT_SCRAPES = 5` and `max_pages = 2`. -/
def c1Cfg : CrawlConfig :=
  { conc := 5, maxPages := 2, matcher := reSearchLit, includePatterns := [],
    excludePatterns := [], fetch := c1Fetch, baseDomain := netlocOf c1Seed }

/-- Counterexample to C1 as stated: with `max_pages = 2` and the default
concurrency 5, a crawl of a seed with five live links terminates with SIX
result entries — the loop appends a whole batch of successes and re-checks
`len(results) < max_pages` only between batches, so the result list
overshoots the page limit.  The run is complete: the frontier has emptied,
and a larger fuel yields the same count. -/
theorem C1_counterexample :
    (crawl_site 3 5 2 reSearchLit [] [] c1Fetch c1Seed).results.length = 6
    ∧ ¬((crawl_site 3 5 2 reSearchLit [] [] c1Fetch c1Seed).results.length ≤ 2)
    ∧ (crawlLoop c1Cfg 3 (crawlInit c1Seed)).queue = []
    ∧ (crawl_site 99 5 2 reSearchLit [] [] c1Fetch c1Seed).results.length = 6 := by
  refine ⟨by decide, by decide, by decide, by decide⟩

/-- C1 (amended): for `max_pages = k` and concurrency bound `c`, the crawl
result never contains more than `k + c - 1` entries (it can exceed `k` by
up to one batch, since the guard is only re-checked between batches), and
the crawl loop terminates exactly when `len(results) >= max_pages` or the
frontier empties: once either holds, no further batch is dispatched. -/
theorem C1_page_limit_amended :
    (∀ (fuel conc maxPages : Nat) (m : String → String → Bool)
        (incl excl : List String) (fetch : String → Option (List String))
        (start : String),
      (crawl_site fuel conc maxPages m incl excl fetch start).results.length
        ≤ maxPages + conc - 1)
    ∧ ∀ (C : CrawlConfig) (fuel : Nat) (st : CrawlState),
        st.queue = [] ∨ C.maxPages ≤ st.results.length →
        crawlLoop C fuel st = st := by
  constructor
  · intro fuel conc maxPages m incl excl fetch start
    exact crawlLoop_length_bound _ fuel start
  · exact fun C fuel st h => crawlLoop_stopped fuel h

/-- Witness for C1 (amended), at the concrete C1 run: the bound `2 + 5 - 1`
holds there, and the loop is a fixpoint on an emptied frontier. -/
theorem C1_witness :
    (crawl_site 3 5 2 reSearchLit [] [] c1Fetch c1Seed).results.length ≤ 2 + 5 - 1
    ∧ crawlLoop c1Cfg 7
        { visited := [], dispatched := [], results := [], queue := [] }
      = { visited := [], dispatched := [], results := [], queue := [] } :=
  ⟨C1_page_limit_amended.1 3 5 2 reSearchLit [] [] c1Fetch c1Seed,
   C1_page_limit_amended.2 c1Cfg 7 _ (Or.inl rfl)⟩

/-! ## Claim C2 — each URL fetched at most once -/

/-- C2: within one crawl job, each URL is dispatched to `_crawl_page` (the
per-URL fetch-and-scrape) at most once — the dispatch trace never repeats a
URL — and a URL has been dispatched exactly when it is in the visited set,
so a visited URL can never be re-dispatched; this holds for every fetch
oracle, hence for every link graph including cyclic ones. -/
theorem C2_each_url_dispatched_once :
    ∀ (C : CrawlConfig) (fuel : Nat) (start : String),
      (crawlLoop C fuel (crawlInit start)).dispatched.Nodup
      ∧ ∀ x, x ∈ (crawlLoop C fuel (crawlInit start)).dispatched ↔
          x ∈ (crawlLoop C fuel (crawlInit start)).visited :=
  fun C fuel start => crawlLoop_dispatch_nodup C fuel start

/-- A cyclic two-page site: the seed links to `p`, and `p` links back to
the seed. -/
def c2Fetch : String → Option (List String) :=
  fun u =>
    if u == "https://a.example/" then some ["https://a.example/p"]
    else if u == "https://a.example/p" then some ["https://a.example/"]
    else some []

/-- The C2 crawl configuration over the cyclic site. -/
def c2Cfg : CrawlConfig :=
  { conc := 5, maxPages := 10, matcher := reSearchLit, includePatterns := [],
    excludePatterns := [], fetch := c2Fetch,
    baseDomain := netlocOf "https://a.example/" }

/-- Witness for C2 on the concrete cyclic crawl: each of the two pages is
dispatched exactly once and the cycle edge back to the seed is never
re-dispatched. -/
theorem C2_witness :
    (crawlLoop c2Cfg 5 (crawlInit "https://a.example/")).dispatched.Nodup
    ∧ (crawlLoop c2Cfg 5 (crawlInit "https://a.example/")).dispatched
        = ["https://a.example/", "https://a.example/p"] :=
  ⟨(C2_each_url_dispatched_once c2Cfg 5 "https://a.example/").1, by decide⟩

/-! ## Claim C6 — domain confinement -/

/-- C6: in crawl and map jobs alike, a discovered link whose host differs
from the seed URL's host is never enqueued: every URL ever held in the
crawl frontier or dispatched, and every URL ever held in the map frontier
or recorded in the sitemap, has the seed's netloc (whatever the pattern
lists and matcher are). -/
theorem C6_domain_confinement :
    (∀ (C : CrawlConfig) (fuel : Nat) (start : String),
      C.baseDomain = netlocOf start →
      (∀ u ∈ (crawlLoop C fuel (crawlInit start)).queue,
        netlocOf u = netlocOf start)
      ∧ ∀ u ∈ (crawlLoop C fuel (crawlInit start)).dispatched,
        netlocOf u = netlocOf start)
    ∧ ∀ (base : String) (fetch : String → Option (List String))
        (maxPages fuel : Nat) (start : String),
      base = netlocOf start →
      (∀ u ∈ (mapLoop base fetch maxPages fuel (mapInit start)).queue,
        netlocOf u = netlocOf start)
      ∧ ∀ e ∈ (mapLoop base fetch maxPages fuel (mapInit start)).sitemap,
        netlocOf e.url = netlocOf start := by
  constructor
  · intro C fuel start hb
    obtain ⟨hq, hv⟩ := crawlLoop_domain C fuel start hb
    refine ⟨fun u hu => ?_, fun u hu => ?_⟩
    · rw [← hb]
      exact hq u hu
    · rw [← hb]
      exact hv u
        (((crawlLoop_dispatch_nodup C fuel start).2 u).mp hu)
  · intro base fetch maxPages fuel start hb
    obtain ⟨hq, _, hs⟩ := mapLoop_domain base fetch maxPages fuel start hb
    exact ⟨fun u hu => hb ▸ hq u hu, fun e he => hb ▸ hs e he⟩

/-- A seed page with one off-domain link and one on-domain link. -/
def c6Fetch : String → Option (List String) :=
  fun u =>
    if u == "https://a.example/" then
      some ["https://b.example/x", "https://a.example/p"]
    else some []

/-- The C6 crawl configuration. -/
def c6Cfg : CrawlConfig :=
  { conc := 5, maxPages := 10, matcher := reSearchLit, includePatterns := [],
    excludePatterns := [], fetch := c6Fetch,
    baseDomain := netlocOf "https://a.example/" }

/-- Witness for C6 on the concrete crawl: after the first batch the
frontier holds the on-domain link (whose netloc the theorem pins to the
seed's), and the off-domain link `https://b.example/x` was not enqueued. -/
theorem C6_witness :
    netlocOf "https://a.example/p" = netlocOf "https://a.example/"
    ∧ "https://b.example/x"
        ∉ (crawlLoop c6Cfg 1 (crawlInit "https://a.example/")).queue :=
  ⟨(C6_domain_confinement.1 c6Cfg 1 "https://a.example/" rfl).1
      "https://a.example/p" (by decide),
   by decide⟩

/-! ## Claim C10 — the seed bypasses the URL filter -/

/-- C10: the seed URL is enqueued directly and fetched without any
`_should_crawl` check — for every configuration (in particular whatever the
exclude patterns and however the seed ends), if the seed's fetch succeeds
and at least one page is allowed, the seed is dispatched and appears in the
crawl results. -/
theorem C10_seed_bypasses_filter :
    ∀ (C : CrawlConfig) (fuel : Nat) (start : String),
      1 ≤ fuel → 1 ≤ C.conc → 1 ≤ C.maxPages → (C.fetch start).isSome →
      start ∈ (crawlLoop C fuel (crawlInit start)).results
      ∧ start ∈ (crawlLoop C fuel (crawlInit start)).dispatched :=
  fun C fuel start => crawlLoop_seed_in_results C fuel start

/-- A seed that both ends in the blacklisted `.pdf` extension and matches
the exclude pattern `file`. -/
def c10Seed : String := "https://a.example/file.pdf"

/-- The C10 crawl configuration: the filter would reject the seed (exclude
pattern and extension blacklist alike), yet the crawl fetches it. -/
def c10Cfg : CrawlConfig :=
  { conc := 1, maxPages := 1, matcher := reSearchLit, includePatterns := [],
    excludePatterns := ["file"], fetch := fun _ => some [],
    baseDomain := netlocOf "https://a.example/file.pdf" }

/-- Witness for C10: the URL filter rejects the seed, yet the seed is
crawled and appears in the results. -/
theorem C10_witness :
    should_crawl reSearchLit c10Seed (netlocOf c10Seed) [] ["file"] = false
    ∧ c10Seed ∈ (crawlLoop c10Cfg 1 (crawlInit c10Seed)).results :=
  ⟨by decide,
   (C10_seed_bypasses_filter c10Cfg 1 c10Seed (by decide) (by decide)
      (by decide) (by decide)).1⟩

/-! ## Claim C3 — page-level errors and the job payload -/

/-- Seed of the C3 run. -/
def c3Seed : String := "https://a.example/"

/-- A same-domain page whose fetch fails. -/
def c3Dead : String := "https://a.example/dead"

/-- A fetch oracle for the C3 run: the seed succeeds and links to one
same-domain page whose fetch fails. -/
def c3Fetch : String → Option (List String) :=
  fun u => if u == "https://a.example/" then some ["https://a.example/dead"] else none

/-- The C3 crawl configuration. -/
def c3Cfg : CrawlConfig :=
  { conc := 5, maxPages := 10, matcher := reSearchLit, includePatterns := [],
    excludePatterns := [], fetch := c3Fetch, baseDomain := netlocOf c3Seed }

/-- Counterexample to C3 as stated: the failed page `c3Dead` is dispatched
and its fetch fails, yet the returned payload — whose complete field set is
`success`, `startUrl`, `pagesCrawled`, `results` — accounts for it nowhere:
the job reports `success`, `pages_crawled = 1`, and a result list holding
only the seed.  The failed page is silently omitted, and no failure count
exists in the payload, where the claim says the error is recorded in the
job's result and aggregated into success/failure statistics. -/
theorem C3_counterexample :
    c3Dead ∈ (crawlLoop c3Cfg 3 (crawlInit c3Seed)).dispatched
    ∧ c3Fetch c3Dead = none
    ∧ (crawl_site 3 5 10 reSearchLit [] [] c3Fetch c3Seed).success = true
    ∧ (crawl_site 3 5 10 reSearchLit [] [] c3Fetch c3Seed).results = [c3Seed]
    ∧ (crawl_site 3 5 10 reSearchLit [] [] c3Fetch c3Seed).pagesCrawled = 1
    ∧ c3Dead ∉ (crawl_site 3 5 10 reSearchLit [] [] c3Fetch c3Seed).results := by
  refine ⟨by decide, by decide, by decide, by decide, by decide, by decide⟩

/-- C3 (amended): page-level failures never escalate to job failure — a
crawl job always reports success, a search job reports success whenever its
upstream fetch succeeded, and a map page that raises is skipped — but
failed pages are silently dropped rather than recorded: the crawl payload's
result list holds only successfully fetched pages and `pages_crawled`
counts exactly those; every sitemap entry comes from a successful fetch;
and the search payload's result list holds only successful scrapes,
`results_found` counting exactly those, with a failed scrape absent from
the payload. -/
theorem C3_failures_silently_dropped :
    (∀ (fuel conc maxPages : Nat) (m : String → String → Bool)
        (incl excl : List String) (fetch : String → Option (List String))
        (start : String),
      (crawl_site fuel conc maxPages m incl excl fetch start).success = true
      ∧ (crawl_site fuel conc maxPages m incl excl fetch start).pagesCrawled
          = (crawl_site fuel conc maxPages m incl excl fetch start).results.length
      ∧ ∀ u ∈ (crawl_site fuel conc maxPages m incl excl fetch start).results,
          (fetch u).isSome)
    ∧ (∀ (base : String) (fetch : String → Option (List String))
        (maxPages fuel : Nat) (start : String),
      ∀ e ∈ (mapLoop base fetch maxPages fuel (mapInit start)).sitemap,
        (fetch e.url).isSome)
    ∧ ∀ (urls : List String) (scrapeOK : String → Bool) (n : Nat) (q : String),
      (search_and_scrape (.ok urls) scrapeOK n q).success = true
      ∧ (search_and_scrape (.ok urls) scrapeOK n q).resultsFound
          = (search_and_scrape (.ok urls) scrapeOK n q).results.length
      ∧ (∀ u ∈ (search_and_scrape (.ok urls) scrapeOK n q).results,
          scrapeOK u = true)
      ∧ ∀ u ∈ urls.take n, scrapeOK u = false →
          u ∉ (search_and_scrape (.ok urls) scrapeOK n q).results := by
  refine ⟨?_, ?_, ?_⟩
  · intro fuel conc maxPages m incl excl fetch start
    exact ⟨rfl, rfl, crawlLoop_results_ok _ fuel start⟩
  · intro base fetch maxPages fuel start e he
    exact (mapLoop_sitemap_ok base fetch maxPages fuel start e he).1
  · intro urls scrapeOK n q
    refine ⟨rfl, rfl, ?_, ?_⟩
    · intro u hu
      exact (List.mem_filter.mp hu).2
    · intro u _ hfail hu
      have := (List.mem_filter.mp hu).2
      rw [hfail] at this
      exact Bool.false_ne_true this

/-- Witness for C3 (amended) at concrete runs: the C3 crawl reports
success; its sole result page really fetched successfully; and a search
whose single result fails to scrape omits it from the payload. -/
theorem C3_witness :
    (crawl_site 3 5 10 reSearchLit [] [] c3Fetch c3Seed).success = true
    ∧ (c3Fetch c3Seed).isSome
    ∧ "https://a.example/dead"
        ∉ (search_and_scrape (.ok ["https://a.example/dead"])
            (fun _ => false) 5 "leads").results :=
  ⟨(C3_failures_silently_dropped.1 3 5 10 reSearchLit [] [] c3Fetch c3Seed).1,
   (C3_failures_silently_dropped.1 3 5 10 reSearchLit [] [] c3Fetch c3Seed).2.2
      c3Seed (by decide),
   (C3_failures_silently_dropped.2.2 ["https://a.example/dead"]
      (fun _ => false) 5 "leads").2.2.2 "https://a.example/dead"
      (by decide) rfl⟩
